import Mathlib

/-!
Shallow embedding of the ferristream streaming orchestration engine
(src/streaming.rs, plus the download-progress telemetry computation of
src/tui/mod.rs), together with theorems settling the spec claims about it.

Conventions:
* Rust `String`/`&str` values are Lean `String`s, manipulated through their
  character lists.  The Rust code only ever lower-cases and substring-searches
  ASCII release names, queries and URLs, so the ASCII `Char.toLower`,
  `Char.isDigit` and `Char.isAlphanum` stand in for the corresponding
  Unicode-aware Rust operations; every concrete input used in a proof is
  ASCII, where the two coincide exactly, and `str::len` (bytes) equals the
  character count.
* Machine integers (`u16`, `u32`, `u64`, `usize`) are `Nat` with explicit
  bounds where overflow could matter; the parsed season/episode numbers are
  at most 2 resp. 3 decimal digits, far below `2^32`, so no wrap occurs.
* `f64` values in the progress computations are modelled as `ℚ`; all the
  quantities the claims evaluate are exactly representable in `f64`.
-/

/-- Rust `str::contains` on valid UTF-8 data: substring containment,
modelled as infix containment of the character list. -/
def strContains (hay needle : String) : Bool :=
  decide (needle.data <:+: hay.data)

/-- Rust `str::starts_with`. -/
def strStartsWith (s pre : String) : Bool :=
  decide (pre.data <+: s.data)

/-- Rust `str::to_lowercase`, ASCII-exact. -/
def strToLower (s : String) : String :=
  String.mk (s.data.map Char.toLower)

/-- Rust `str::split` with a character predicate naming the separators:
consecutive separators produce empty pieces, exactly as in Rust. -/
def splitByAux (p : Char → Bool) : List Char → List Char → List (List Char)
  | [], acc => [acc.reverse]
  | c :: cs, acc =>
      if p c then acc.reverse :: splitByAux p cs [] else splitByAux p cs (c :: acc)

/-- Split a string at the characters satisfying `p`. -/
def splitBy (p : Char → Bool) (s : String) : List (List Char) :=
  splitByAux p s.data []

/-- Decimal value of a list of ASCII digits, most significant first. -/
def digitsToNat (ds : List Char) : Nat :=
  ds.foldl (fun n c => n * 10 + (c.toNat - 48)) 0

/-- Decimal digit character. -/
def digitChar (n : Nat) : Char := Char.ofNat (48 + n)

/-- Decimal digits of `n`, most significant first; the fuel bounds the digit
count and is always supplied large enough for the values at hand. -/
def natDigitsAux : Nat → Nat → List Char
  | 0, _ => []
  | fuel + 1, n =>
      if n < 10 then [digitChar n] else natDigitsAux fuel (n / 10) ++ [digitChar (n % 10)]

/-- Rust `u16::to_string` (decimal); `u16` values have at most 5 digits. -/
def natToString (n : Nat) : String := String.mk (natDigitsAux 6 n)

/-! ### TorrentValidation (src/streaming.rs lines 276-326) -/

/-- Validation criteria for racing torrents (struct `TorrentValidation`).
`year` is a `u16` in the source; its values are below `2^16`. -/
structure TorrentValidation where
  title_keywords : List String
  year : Option Nat
deriving Repr, DecidableEq

/-- Constructor `TorrentValidation::new`. -/
def TorrentValidation.new (title_keywords : List String) (year : Option Nat) :
    TorrentValidation :=
  { title_keywords, year }

/-- Method `TorrentValidation::matches`: the filename is lower-cased, each
keyword (verbatim, not lower-cased) is substring-searched in it; the year, if
present, is rendered in decimal and substring-searched in the original
filename. -/
def TorrentValidation.matches (v : TorrentValidation) (filename : String) : Bool :=
  let filename_lower := strToLower filename
  let title_matches := v.title_keywords.isEmpty
    || v.title_keywords.any (fun kw => strContains filename_lower kw)
  let year_matches := match v.year with
    | some year => strContains filename (natToString year)
    | none => true
  title_matches && year_matches

/-- Modelled from the spec wording of the keyword clause, for comparison with
`TorrentValidation.matches`: a keyword counts as a case-insensitive substring
of the filename, i.e. both sides are lower-cased before searching. -/
def TorrentValidation.matchesSpecCI (v : TorrentValidation) (filename : String) : Bool :=
  let title_matches := v.title_keywords.isEmpty
    || v.title_keywords.any (fun kw => strContains (strToLower filename) (strToLower kw))
  let year_matches := match v.year with
    | some year => strContains filename (natToString year)
    | none => true
  title_matches && year_matches

/-- The fixed stop-word list of `TorrentValidation::extract_keywords`. -/
def stop_words : List String :=
  ["the", "a", "an", "and", "or", "of", "in", "on", "at", "to", "for"]

/-- Rust `word.parse::<u16>().is_ok()` on an alphanumeric token: all characters
are ASCII decimal digits, the token is nonempty, and the value fits in 16 bits.
Sign prefixes cannot occur because the tokens come from an alphanumeric
split. -/
def parsesAsU16 (word : List Char) : Bool :=
  !word.isEmpty && word.all Char.isDigit && decide (digitsToNat word ≤ 65535)

/-- Method `TorrentValidation::extract_keywords`: split the query on
non-alphanumeric characters, keep tokens of length at least 3, lower-case,
drop stop words, drop tokens that parse as `u16` and have length 4.
The result is collected into a `Vec` as-is: duplicates are kept. -/
def TorrentValidation.extract_keywords (query : String) : List String :=
  ((splitBy (fun c => !c.isAlphanum) query).filter
      (fun word => decide (word.length ≥ 3))
    |>.map (fun word => word.map Char.toLower)
    |>.filter (fun word => !stop_words.contains (String.mk word))
    |>.filter (fun word => !parsesAsU16 word || decide (word.length ≠ 4))
    |>.map String.mk)

/-! ### Progress computations -/

/-- Function `calculate_progress` (src/streaming.rs lines 1040-1046): playback
progress percent, clamped to 100 by `f64::min`. -/
def calculate_progress (position duration : ℚ) : ℚ :=
  if 0 < duration then min (position / duration * 100) 100 else 0

/-- The `progress_percent` field as computed at the three `DownloadProgress`
emission sites in src/tui/mod.rs (lines 652-658, 931-937, 1743-1749):
`downloaded / total * 100` when `total > 0`, else `0`, with no clamping. -/
def progress_percent (downloaded_bytes total_bytes : Nat) : ℚ :=
  if 0 < total_bytes then (downloaded_bytes : ℚ) / (total_bytes : ℚ) * 100 else 0

/-! ### VideoFile and episode sorting (src/streaming.rs lines 848-887) -/

/-- Struct `VideoFile`. -/
structure VideoFile where
  name : String
  file_idx : Nat
  size : Nat
  stream_url : String
deriving Repr, DecidableEq

/-- Take up to `m` leading ASCII digits; returns the digits and the rest. -/
def takeDigits : Nat → List Char → List Char × List Char
  | 0, cs => ([], cs)
  | _ + 1, [] => ([], [])
  | m + 1, c :: cs =>
      if c.isDigit then
        let p := takeDigits m cs
        (c :: p.1, p.2)
      else ([], c :: cs)

/-- Attempt to match the regex `[Ss](\d{1,2})[Ee](\d{1,3})` at the start of
the character list.  Greedy digit capture without backtracking is exact here:
if after taking all available digits (capped at the repetition bound) the next
character is not the required delimiter, giving back a digit only exposes
another digit, which is not the delimiter either, so the regex engine also
fails at this position. -/
def matchSxExAt : List Char → Option (Nat × Nat)
  | [] => none
  | c :: rest =>
      if c = 'S' || c = 's' then
        let p1 := takeDigits 2 rest
        if p1.1.isEmpty then none
        else
          match p1.2 with
          | [] => none
          | e :: r2 =>
              if e = 'E' || e = 'e' then
                let p2 := takeDigits 3 r2
                if p2.1.isEmpty then none
                else some (digitsToNat p1.1, digitsToNat p2.1)
              else none
      else none

/-- Attempt to match the regex `(?i)(\d{1,2})x(\d{1,3})` at the start of the
character list, with the same greedy-without-backtracking justification as
`matchSxExAt`. -/
def matchXAt (cs : List Char) : Option (Nat × Nat) :=
  let p1 := takeDigits 2 cs
  if p1.1.isEmpty then none
  else
    match p1.2 with
    | [] => none
    | x :: r2 =>
        if x = 'x' || x = 'X' then
          let p2 := takeDigits 3 r2
          if p2.1.isEmpty then none
          else some (digitsToNat p1.1, digitsToNat p2.1)
        else none

/-- Leftmost match: `Regex::captures` returns the match at the leftmost
starting position where the pattern matches. -/
def scanFor (m : List Char → Option (Nat × Nat)) : List Char → Option (Nat × Nat)
  | [] => none
  | c :: cs =>
      match m (c :: cs) with
      | some se => some se
      | none => scanFor m cs

/-- Value of `u32::MAX`. -/
def U32_MAX : Nat := 4294967295

/-- Method `VideoFile::episode_sort_key`: try the `S01E02` pattern, then the
`1x02` pattern, else the `(u32::MAX, u32::MAX)` sentinel.  The captured
season/episode digits (at most 2 resp. 3) always parse as `u32`. -/
def VideoFile.episode_sort_key (f : VideoFile) : Nat × Nat :=
  match scanFor matchSxExAt f.name.data with
  | some se => se
  | none =>
      match scanFor matchXAt f.name.data with
      | some se => se
      | none => (U32_MAX, U32_MAX)

/-- Lexicographic order on `(u32, u32)` keys, as derived by Rust for tuples. -/
def keyLe (a b : Nat × Nat) : Bool :=
  decide (a.1 < b.1) || (decide (a.1 = b.1) && decide (a.2 ≤ b.2))

/-- The sort relation of `sort_episodes`, as a proposition on files. -/
def epLe (a b : VideoFile) : Prop :=
  keyLe a.episode_sort_key b.episode_sort_key = true

instance : DecidableRel epLe := fun _ _ => instDecidableEqBool _ _

instance : IsTotal VideoFile epLe :=
  ⟨fun a b => by
    unfold epLe keyLe
    rcases Nat.lt_trichotomy a.episode_sort_key.1 b.episode_sort_key.1 with h | h | h
    · exact Or.inl (by simp [h])
    · rcases Nat.le_total a.episode_sort_key.2 b.episode_sort_key.2 with h2 | h2
      · exact Or.inl (by simp [h, h2])
      · exact Or.inr (by simp [h, h2])
    · exact Or.inr (by simp [h])⟩

instance : IsTrans VideoFile epLe :=
  ⟨fun a b c hab hbc => by
    unfold epLe keyLe at hab hbc ⊢
    simp only [Bool.or_eq_true, Bool.and_eq_true, decide_eq_true_eq] at hab hbc ⊢
    omega⟩

/-- Function `sort_episodes`: Rust `slice::sort_by_key` with key
`episode_sort_key` is a stable sort by `keyLe`; for a total preorder the
stable sorted permutation is unique, and insertion sort computes it. -/
def sort_episodes (files : List VideoFile) : List VideoFile :=
  files.insertionSort epLe

/-! ### Torrent data model (src/streaming.rs lines 17-39, 889-915) -/

/-- Struct `SubtitleFile`. -/
structure SubtitleFile where
  name : String
  file_idx : Nat
  language : Option String
  stream_url : String
deriving Repr, DecidableEq

/-- Struct `TorrentInfo`. -/
structure TorrentInfo where
  id : Nat
  name : String
  video_files : List VideoFile
  selected_file : VideoFile
  subtitle_files : List SubtitleFile
deriving Repr, DecidableEq

/-- Enum `StreamError`; each constructor carries the formatted payloads the
source interpolates into its message. -/
inductive StreamError where
  | SessionError (msg : String)
  | TorrentError (msg : String)
  | NoVideoFiles
  | PlayerError (player msg : String)
  | MagnetRedirect (magnet : String)
  | NoPeers
  | MetadataTimeout
deriving Repr, DecidableEq

/-! ### Race coordinator (src/streaming.rs lines 178-272)

`StreamingSession::race_torrents` seeds a pool of at most `concurrent` spawned
`add_torrent` tasks, then loops on `tokio::select!` between the cancellation
token and the completion channel while tasks are in flight.  The embedding
makes the scheduling explicit: each candidate's `add_torrent` outcome is a
function of its index (the task for index `i` sends `(i, outcome i)` on the
channel exactly once), and a run is driven by a schedule — the sequence of
events the `select!` observes, either the completion of an in-flight task or
the cancellation branch firing.  The channel has capacity `total`, so sends
never block and any interleaving of completions is some schedule.  A schedule
entry completing a task that is not in flight cannot be produced by the
channel; the step function ignores such entries. -/

/-- One event observed by the `tokio::select!` in the racing loop. -/
inductive RaceEvent where
  | complete (idx : Nat)
  | cancel
deriving Repr, DecidableEq

/-- State of the racing loop between `select!` iterations: the indices whose
tasks are in flight, the iterator position (`urls_iter`), and the returned
value once the function has returned. -/
structure RaceState where
  inFlight : List Nat
  nextIdx : Nat
  result : Option (Except StreamError (Nat × TorrentInfo))
deriving Repr

/-- The `if let Some(ref v) = validation && !v.matches(...)` rejection test. -/
def raceRejects (validation : Option TorrentValidation) (info : TorrentInfo) : Bool :=
  match validation with
  | some v => !v.matches info.selected_file.name
  | none => false

/-- Shared failure/rejection continuation of the racing loop: pull the next
candidate from the iterator if one remains (spawning its task), then, if the
pool has drained, the `while in_flight > 0` loop exits and the aggregate
failure is returned. -/
def raceSpawnNext (total : Nat) (s : RaceState) : RaceState :=
  let s1 :=
    if s.nextIdx < total then
      { s with inFlight := s.inFlight ++ [s.nextIdx], nextIdx := s.nextIdx + 1 }
    else s
  if s1.inFlight.isEmpty then
    { s1 with result := some (.error (.TorrentError "no matching torrents found")) }
  else s1

/-- One iteration of the racing loop.  After the function has returned
(`result` is `some`) nothing changes: later completions are ignored by the
caller. -/
def raceStep (total : Nat) (validation : Option TorrentValidation)
    (outcome : Nat → Except StreamError TorrentInfo)
    (s : RaceState) (ev : RaceEvent) : RaceState :=
  if s.result.isSome then s
  else
    match ev with
    | .cancel => { s with result := some (.error (.TorrentError "cancelled")) }
    | .complete idx =>
        if idx ∈ s.inFlight then
          let s0 := { s with inFlight := s.inFlight.erase idx }
          match outcome idx with
          | .ok info =>
              if raceRejects validation info then raceSpawnNext total s0
              else { s0 with result := some (.ok (idx, info)) }
          | .error _ => raceSpawnNext total s0
        else s

/-- State after the initial batch: the first `min concurrent total` candidates
are spawned; if that batch is empty the `while` loop never runs and the
aggregate failure is returned at once. -/
def raceInit (total concurrent : Nat) : RaceState :=
  let seeded := List.range (min concurrent total)
  { inFlight := seeded
    nextIdx := min concurrent total
    result :=
      if seeded.isEmpty then
        some (.error (.TorrentError "no matching torrents found"))
      else none }

/-- State of the racing loop after observing the events of `sched`. -/
def raceRun (total : Nat) (validation : Option TorrentValidation)
    (outcome : Nat → Except StreamError TorrentInfo)
    (concurrent : Nat) (sched : List RaceEvent) : RaceState :=
  sched.foldl (raceStep total validation outcome) (raceInit total concurrent)

/-- Method `StreamingSession::race_torrents` on a run driven by `sched`:
`total` is `urls.len()` and `outcome i` is the result `add_torrent(&urls[i])`
sends back for candidate `i`.  `none` means the schedule ended while the loop
was still waiting on in-flight tasks (the run is not finished). -/
def race_torrents (total : Nat) (validation : Option TorrentValidation)
    (outcome : Nat → Except StreamError TorrentInfo)
    (concurrent : Nat) (sched : List RaceEvent) :
    Option (Except StreamError (Nat × TorrentInfo)) :=
  if total = 0 then some (.error (.TorrentError "no torrents to race"))
  else (raceRun total validation outcome concurrent sched).result

/-! ### Metadata resolver: manual redirect following
(src/streaming.rs lines 328-360 and 757-845) -/

/-- Value of a hexadecimal digit character. -/
def hexVal (c : Char) : Option Nat :=
  if '0' ≤ c && c ≤ '9' then some (c.toNat - 48)
  else if 'a' ≤ c && c ≤ 'f' then some (c.toNat - 87)
  else if 'A' ≤ c && c ≤ 'F' then some (c.toNat - 55)
  else none

/-- Percent-decoding to bytes, as `urlencoding::decode` does it: a percent
sign followed by two hex digits becomes the decoded byte, anything else
(including a percent not followed by two hex digits) passes through.  The
input is an HTTP header value, hence visible ASCII. -/
def percentDecodeBytes : List Char → List Nat
  | [] => []
  | '%' :: h1 :: h2 :: rest =>
      match hexVal h1, hexVal h2 with
      | some a, some b => (16 * a + b) :: percentDecodeBytes rest
      | _, _ => 37 :: percentDecodeBytes (h1 :: h2 :: rest)
  | c :: rest => c.toNat :: percentDecodeBytes rest

/-- Model of `urlencoding::decode(location).unwrap_or_default()`: the decode
returns `Err` when the decoded bytes are not valid UTF-8, which the caller
turns into the empty string.  Decoded bytes all below `0x80` are exactly the
ASCII case the system exercises; a non-ASCII byte is treated as the error
case (some multi-byte UTF-8 outputs that Rust would accept are not modelled;
no claim evaluates the function there). -/
def urldecode (location : String) : String :=
  let bytes := percentDecodeBytes location.data
  if bytes.all (fun b => decide (b < 128)) then String.mk (bytes.map Char.ofNat)
  else ""

/-- Rust `str::find` for a substring pattern: index of the first occurrence
(character index; equal to the byte index on ASCII data). -/
def findSub : List Char → List Char → Option Nat
  | hay, needle =>
    if needle <+: hay then some 0
    else
      match hay with
      | [] => none
      | _ :: rest => (findSub rest needle).map (· + 1)

/-- The magnet-extraction block of `fetch_torrent_file` (lines 797-810): a
location that itself starts with `magnet:` is taken whole; otherwise it is
URL-decoded and sliced from the first occurrence of `magnet:`, falling back
to the raw location when the decoded text has no occurrence. -/
def extractMagnet (location : String) : String :=
  if strStartsWith location "magnet:" then location
  else
    let decoded := urldecode location
    match findSub decoded.data "magnet:".data with
    | some idx => String.mk (decoded.data.drop idx)
    | none => location

/-- The magnet test on a `Location` header (line 797); the `starts_with`
disjunct is subsumed by `contains`, as in the source. -/
def isMagnetLocation (location : String) : Bool :=
  strStartsWith location "magnet:" || strContains location "magnet:"

/-- Everything up to (and excluding) the last slash, i.e. the first component
of `str::rsplit_once` at a slash, with the source fallback to the whole
string when there is no slash. -/
def dropAfterLastSlash (u : List Char) : List Char :=
  if u.contains '/' then (((u.reverse.dropWhile (fun c => c ≠ '/')).drop 1)).reverse
  else u

/-- Relative-redirect resolution (lines 813-838).  Absolute `http(s)` targets
are taken whole; an absolute path is attached to `scheme://host` of the
current URL, mirroring `url::Url::parse` followed by
`format!` over `scheme()` and `host_str()` (the parse fails, as a
`TorrentError`, when the current URL has no `://`; `host_str` stops at the
first slash, colon, query or fragment, so a port is dropped exactly as the
source's `format!` drops it); a relative path replaces everything after the
last slash of the current URL. -/
def resolveLocation (current_url location : String) : Except StreamError String :=
  if strStartsWith location "http://" || strStartsWith location "https://" then
    .ok location
  else if strStartsWith location "/" then
    match findSub current_url.data "://".data with
    | some i =>
        let host := (current_url.data.drop (i + 3)).takeWhile
          (fun c => c ≠ '/' && c ≠ ':' && c ≠ '?' && c ≠ '#')
        .ok (String.mk (current_url.data.take i) ++ "://" ++ String.mk host ++ location)
    | none => .error (.TorrentError "relative URL without a base")
  else
    .ok (String.mk (dropAfterLastSlash current_url.data) ++ "/" ++ location)

/-- Abstraction of one HTTP GET of `fetch_torrent_file`: the transport error,
the 2xx, the 3xx (with its optional `Location` header) and the remaining
status classes the source distinguishes. -/
inductive HttpResp where
  | netError (msg : String)
  | success (bytes : List Nat)
  | redirection (location : Option String)
  | failure (status : Nat)
deriving Repr, DecidableEq

/-- Value of `MAX_REDIRECTS`. -/
def MAX_REDIRECTS : Nat := 10

/-- The redirect loop of `fetch_torrent_file`, structurally recursive on the
remaining hop budget: `fuel` stands for `MAX_REDIRECTS + 1 - redirects`, so
the source's `redirects += 1; if redirects > MAX_REDIRECTS` check is
`fuel = 0` after the pattern has peeled one unit off.  The zero-fuel arm is
unreachable from `fetch_torrent_file` and returns the same failure as an
exhausted budget. -/
def fetch_torrent_file_go (world : String → HttpResp) :
    Nat → String → Except StreamError (List Nat)
  | 0, _ => .error (.TorrentError "too many redirects")
  | fuel + 1, current_url =>
      match world current_url with
      | .netError msg => .error (.TorrentError ("failed to fetch: " ++ msg))
      | .success bytes => .ok bytes
      | .failure status => .error (.TorrentError ("HTTP " ++ natToString status))
      | .redirection loc? =>
          if fuel = 0 then .error (.TorrentError "too many redirects")
          else
            match loc? with
            | none => .error (.TorrentError "redirect without location header")
            | some location =>
                if isMagnetLocation location then
                  .error (.MagnetRedirect (extractMagnet location))
                else
                  match resolveLocation current_url location with
                  | .error e => .error e
                  | .ok nextUrl => fetch_torrent_file_go world fuel nextUrl

/-- Method `StreamingSession::fetch_torrent_file`, starting with a zero
redirect count. -/
def fetch_torrent_file (world : String → HttpResp) (url : String) :
    Except StreamError (List Nat) :=
  fetch_torrent_file_go world (MAX_REDIRECTS + 1) url

/-- Method `StreamingSession::add_torrent` (lines 328-360), with the two
engine submission paths abstracted: `addViaHttp` is
`add_torrent_via_http_full` (used for magnets) and `addBytes` is
`add_torrent_bytes` (used for fetched `.torrent` payloads).  A
`MagnetRedirect` outcome of the fetch restarts resolution on the extracted
magnet; every other fetch error is the candidate's failure. -/
def add_torrent (world : String → HttpResp)
    (addViaHttp : String → Except StreamError TorrentInfo)
    (addBytes : List Nat → Except StreamError TorrentInfo)
    (url : String) : Except StreamError TorrentInfo :=
  if strStartsWith url "http://" || strStartsWith url "https://" then
    match fetch_torrent_file world url with
    | .ok bytes => addBytes bytes
    | .error (.MagnetRedirect magnet) => addViaHttp magnet
    | .error e => .error e
  else addViaHttp url

/-- One observed non-magnet redirect hop: the world answers a 3xx whose
location does not contain a magnet URI and resolves against the current
URL. -/
def nonMagnetStep (world : String → HttpResp) (u : String) : Option String :=
  match world u with
  | .redirection (some loc) =>
      if isMagnetLocation loc then none
      else
        match resolveLocation u loc with
        | .ok nextUrl => some nextUrl
        | .error _ => none
  | _ => none

/-- The URL reached after `n` non-magnet redirect hops, when the chain does
perform them. -/
def followN (world : String → HttpResp) : Nat → String → Option String
  | 0, u => some u
  | n + 1, u =>
      match nonMagnetStep world u with
      | some u2 => followN world n u2
      | none => none

/-! ### Claims about validation, keyword extraction and progress -/

/-- C4 counterexample: the claim reads keyword matching as case-insensitive
on both sides, but `matches` compares keywords verbatim against the
lower-cased filename, so an upper-case keyword that the claim accepts is
rejected by the code. -/
theorem c4_counterexample :
    TorrentValidation.matches ⟨["GARFIELD"], none⟩ "garfield.mkv" = false
    ∧ TorrentValidation.matchesSpecCI ⟨["GARFIELD"], none⟩ "garfield.mkv" = true :=
  ⟨by decide, by decide⟩

/-- C4 (amended): `matches` returns true iff (the keyword list is empty or
some keyword is a verbatim substring of the lower-cased filename — the
filename's case is ignored, the keyword's own case is not) and (the year is
absent or its decimal string is a substring of the filename); in particular,
with empty keywords and no year, every filename is accepted. -/
theorem c4_matches_characterization (v : TorrentValidation) (f : String) :
    (v.matches f = true ↔
      ((v.title_keywords = [] ∨ ∃ kw ∈ v.title_keywords, strContains (strToLower f) kw = true)
        ∧ ∀ y, v.year = some y → strContains f (natToString y) = true))
    ∧ TorrentValidation.matches ⟨[], none⟩ f = true := by
  constructor
  · unfold TorrentValidation.matches
    cases hy : v.year with
    | none =>
        simp [List.isEmpty_iff, List.any_eq_true]
    | some y =>
        simp [List.isEmpty_iff, List.any_eq_true, and_comm]
  · rfl

/-- C4 witness: the characterization applied to empty criteria. -/
theorem c4_matches_characterization_witness :
    TorrentValidation.matches ⟨[], none⟩ "Anything.At.All.mkv" = true :=
  (c4_matches_characterization ⟨[], none⟩ "Anything.At.All.mkv").2

/-- C5 counterexample: `extract_keywords` collects the filtered tokens
without de-duplication, so a repeated token survives twice. -/
theorem c5_counterexample :
    TorrentValidation.extract_keywords "lord lord" = ["lord", "lord"]
    ∧ ¬ (TorrentValidation.extract_keywords "lord lord").Nodup :=
  ⟨by decide, by decide⟩

/-- C5 (amended): `extract_keywords` splits on non-alphanumerics, keeps
tokens of length at least 3, lower-cases, drops the stop words, drops 4-digit
year tokens, and keeps duplicates; the two example queries give exactly the
claimed keyword lists, and every produced keyword is at least 3 characters,
not a stop word, and not a 4-digit `u16` token. -/
theorem c5_extract_keywords (q w : String) :
    TorrentValidation.extract_keywords "The Lord of the Rings 2001" = ["lord", "rings"]
    ∧ TorrentValidation.extract_keywords "Spider-Man: No Way Home (2021)"
        = ["spider", "man", "way", "home"]
    ∧ (w ∈ TorrentValidation.extract_keywords q →
        3 ≤ w.length ∧ w ∉ stop_words ∧ (parsesAsU16 w.data = false ∨ w.length ≠ 4)) := by
  refine ⟨by decide, by decide, ?_⟩
  intro hw
  unfold TorrentValidation.extract_keywords at hw
  simp only [List.mem_map, List.mem_filter] at hw
  obtain ⟨word, ⟨⟨⟨word0, ⟨-, hlen⟩, hword0⟩, hsw⟩, hyear⟩, rfl⟩ := hw
  refine ⟨?_, ?_, ?_⟩
  · have : (String.mk word).length = word.length := rfl
    rw [this]
    subst hword0
    simpa [List.length_map] using Nat.le_of_ble_eq_true (by simpa using hlen)
  · intro hmem
    simp only [Bool.not_eq_true', ← Bool.not_eq_true] at hsw
    simp at hsw
    exact hsw hmem
  · have hdata : (String.mk word).data = word := rfl
    have hlen2 : (String.mk word).length = word.length := rfl
    rw [hdata, hlen2]
    rcases Bool.or_eq_true _ _ |>.mp hyear with h | h
    · exact Or.inl (by simpa using h)
    · exact Or.inr (by simpa using h)

/-- C5 witness: the keyword facts at a concrete query and keyword. -/
theorem c5_extract_keywords_witness :
    3 ≤ ("lord" : String).length ∧ ("lord" : String) ∉ stop_words
    ∧ (parsesAsU16 ("lord" : String).data = false ∨ ("lord" : String).length ≠ 4) :=
  (c5_extract_keywords "lord rings" "lord").2.2 (by decide)

/-- C6 counterexample: at `downloaded = 150`, `total = 100` the emitted
`progress_percent` is 150, not the claimed clamped 100 — it does exceed
100. -/
theorem c6_counterexample :
    progress_percent 150 100 = 150 ∧ ¬ progress_percent 150 100 ≤ 100 := by
  constructor
  · norm_num [progress_percent]
  · norm_num [progress_percent]

/-- C6 (amended): the emitted `DownloadProgress.progress_percent` is
`downloaded / total * 100` when `total > 0` with no clamping (it stays at or
below 100 only when `downloaded ≤ total`), and `0` when `total = 0`; the
separate playback `calculate_progress` is clamped by `min` at 100 and takes
the claimed values 0, 50 and 100 at `(0,0)`, `(50,100)` and `(150,100)`. -/
theorem c6_progress_percent (d t : Nat) (p dur : ℚ) :
    (0 < t → progress_percent d t = (d : ℚ) / (t : ℚ) * 100)
    ∧ (t = 0 → progress_percent d t = 0)
    ∧ (0 < t → d ≤ t → progress_percent d t ≤ 100)
    ∧ (0 < dur → calculate_progress p dur ≤ 100)
    ∧ calculate_progress 0 0 = 0
    ∧ calculate_progress 50 100 = 50
    ∧ calculate_progress 150 100 = 100 := by
  refine ⟨?_, ?_, ?_, ?_, ?_, ?_, ?_⟩
  · intro ht; simp [progress_percent, ht]
  · intro ht; simp [progress_percent, ht]
  · intro ht hd
    have htq : (0 : ℚ) < t := by exact_mod_cast ht
    have hdq : (d : ℚ) ≤ t := by exact_mod_cast hd
    have h1 : (d : ℚ) / t ≤ 1 := (div_le_one htq).mpr hdq
    calc progress_percent d t = (d : ℚ) / t * 100 := by simp [progress_percent, ht]
      _ ≤ 1 * 100 := by nlinarith
      _ = 100 := by norm_num
  · intro hdur
    simp only [calculate_progress, if_pos hdur]
    exact min_le_right _ _
  · norm_num [calculate_progress]
  · norm_num [calculate_progress]
  · norm_num [calculate_progress]

/-- C6 witness: the amended statement at `downloaded = 50`, `total = 100`,
playback position 150 of duration 100. -/
theorem c6_progress_percent_witness :
    progress_percent 50 100 = (50 : ℚ) / (100 : ℚ) * 100
    ∧ progress_percent 50 100 ≤ 100
    ∧ calculate_progress 150 100 ≤ 100 := by
  have h := c6_progress_percent 50 100 150 100
  exact ⟨h.1 (by decide), h.2.2.1 (by decide) (by decide),
    h.2.2.2.1 (by norm_num)⟩

/-! ### Claims about episode sorting -/

/-- A matched digit group is short and all digits. -/
lemma takeDigits_spec (m : Nat) (cs : List Char) :
    (takeDigits m cs).1.length ≤ m ∧ ∀ c ∈ (takeDigits m cs).1, c.isDigit = true := by
  induction m generalizing cs with
  | zero => simp [takeDigits]
  | succ m ih =>
    cases cs with
    | nil => simp [takeDigits]
    | cons c cs =>
      by_cases h : c.isDigit = true
      · simp only [takeDigits, if_pos h]
        refine ⟨by simpa using Nat.succ_le_succ (ih cs).1, ?_⟩
        intro d hd
        rcases List.mem_cons.mp hd with rfl | hd
        · exact h
        · exact (ih cs).2 d hd
      · simp [takeDigits, h]

/-- Value bound for an ASCII digit character. -/
lemma digit_val_le (c : Char) (h : c.isDigit = true) : c.toNat - 48 ≤ 9 := by
  simp only [Char.isDigit, Bool.and_eq_true, decide_eq_true_eq] at h
  have h3 : c.val.toNat ≤ 57 := by
    have h2 : c.val ≤ 57 := h.2
    rw [UInt32.le_def] at h2
    simpa using h2
  simp only [Char.toNat]
  omega

/-- Accumulator bound for the digit fold. -/
lemma digits_foldl_lt (ds : List Char) (h : ∀ c ∈ ds, c.isDigit = true) :
    ∀ acc : Nat, ds.foldl (fun n c => n * 10 + (c.toNat - 48)) acc < (acc + 1) * 10 ^ ds.length := by
  induction ds with
  | nil => intro acc; simp
  | cons c ds ih =>
    intro acc
    have hc : c.toNat - 48 ≤ 9 := digit_val_le c (h c (by simp))
    have h2 := ih (fun d hd => h d (by simp [hd])) (acc * 10 + (c.toNat - 48))
    calc (c :: ds).foldl (fun n c => n * 10 + (c.toNat - 48)) acc
        = ds.foldl (fun n c => n * 10 + (c.toNat - 48)) (acc * 10 + (c.toNat - 48)) := by
          simp [List.foldl_cons]
      _ < (acc * 10 + (c.toNat - 48) + 1) * 10 ^ ds.length := h2
      _ ≤ ((acc + 1) * 10) * 10 ^ ds.length := Nat.mul_le_mul_right _ (by omega)
      _ = (acc + 1) * 10 ^ (c :: ds).length := by
          simp [List.length_cons, pow_succ]
          ring

/-- The decimal value of an all-digit list is below `10 ^` its length. -/
lemma digitsToNat_lt (ds : List Char) (h : ∀ c ∈ ds, c.isDigit = true) :
    digitsToNat ds < 10 ^ ds.length := by
  simpa [digitsToNat] using digits_foldl_lt ds h 0


/-- The value captured by up to `m` digits is below `10 ^ m`. -/
lemma takeDigits_value_lt (m : Nat) (cs : List Char) (bound : Nat)
    (hpow : 10 ^ m ≤ bound) : digitsToNat (takeDigits m cs).1 < bound := by
  have hd := takeDigits_spec m cs
  have b1 : digitsToNat (takeDigits m cs).1 < 10 ^ (takeDigits m cs).1.length :=
    digitsToNat_lt _ hd.2
  have p1 : 10 ^ (takeDigits m cs).1.length ≤ 10 ^ m :=
    Nat.pow_le_pow_right (by omega) hd.1
  omega

/-- Two captured digits stay below 100. -/
lemma takeDigits_value_le99 (cs : List Char) : digitsToNat (takeDigits 2 cs).1 ≤ 99 := by
  have := takeDigits_value_lt 2 cs 100 (by norm_num)
  omega

/-- Three captured digits stay below 1000. -/
lemma takeDigits_value_le999 (cs : List Char) : digitsToNat (takeDigits 3 cs).1 ≤ 999 := by
  have := takeDigits_value_lt 3 cs 1000 (by norm_num)
  omega

/-- Season/episode bounds for an `SxxEyy` match. -/
lemma matchSxExAt_bound {cs : List Char} {s e : Nat} (h : matchSxExAt cs = some (s, e)) :
    s ≤ 99 ∧ e ≤ 999 := by
  unfold matchSxExAt at h
  dsimp only at h
  repeat' split at h
  all_goals simp only [Option.some.injEq, Prod.mk.injEq, reduceCtorEq] at h
  obtain ⟨rfl, rfl⟩ := h
  exact ⟨takeDigits_value_le99 _, takeDigits_value_le999 _⟩

/-- Season/episode bounds for a `NNxMMM` match. -/
lemma matchXAt_bound {cs : List Char} {s e : Nat} (h : matchXAt cs = some (s, e)) :
    s ≤ 99 ∧ e ≤ 999 := by
  unfold matchXAt at h
  dsimp only at h
  repeat' split at h
  all_goals simp only [Option.some.injEq, Prod.mk.injEq, reduceCtorEq] at h
  obtain ⟨rfl, rfl⟩ := h
  exact ⟨takeDigits_value_le99 _, takeDigits_value_le999 _⟩

/-- Bounds propagate through the leftmost scan. -/
lemma scanFor_bound {m : List Char → Option (Nat × Nat)}
    (hb : ∀ cs s e, m cs = some (s, e) → s ≤ 99 ∧ e ≤ 999) :
    ∀ cs s e, scanFor m cs = some (s, e) → s ≤ 99 ∧ e ≤ 999 := by
  intro cs
  induction cs with
  | nil => intro s e h; simp [scanFor] at h
  | cons c cs ih =>
    intro s e h
    unfold scanFor at h
    cases hm : m (c :: cs) with
    | some se => rw [hm] at h; exact hb _ _ _ (hm.trans (by rw [Option.some.inj h]))
    | none => rw [hm] at h; exact ih s e h

/-- Every episode sort key is componentwise at most the sentinel. -/
lemma episode_sort_key_le_sentinel (f : VideoFile) :
    f.episode_sort_key.1 ≤ U32_MAX ∧ f.episode_sort_key.2 ≤ U32_MAX := by
  unfold VideoFile.episode_sort_key
  cases h1 : scanFor matchSxExAt f.name.data with
  | some se =>
      show se.1 ≤ U32_MAX ∧ se.2 ≤ U32_MAX
      have := scanFor_bound (fun _ _ _ h => matchSxExAt_bound h) _ se.1 se.2 (by simpa using h1)
      unfold U32_MAX
      omega
  | none =>
      cases h2 : scanFor matchXAt f.name.data with
      | some se =>
          show se.1 ≤ U32_MAX ∧ se.2 ≤ U32_MAX
          have := scanFor_bound (fun _ _ _ h => matchXAt_bound h) _ se.1 se.2 (by simpa using h2)
          unfold U32_MAX
          omega
      | none =>
          show U32_MAX ≤ U32_MAX ∧ U32_MAX ≤ U32_MAX
          exact ⟨le_refl _, le_refl _⟩

/-- C10: a filename containing a resolution string such as `1920x1080` and no
real episode marker is matched by the `1x02` pattern: its key is `(20, 108)`
(the leftmost 1-2 digit, `x`, 1-3 digit substring), not the sentinel, so it
sorts before files whose names parse to no key at all. -/
theorem c10_resolution_matches_x_pattern :
    (VideoFile.mk "Movie.2019.1920x1080.mkv" 0 700 "").episode_sort_key = (20, 108)
    ∧ (VideoFile.mk "Movie.2019.1920x1080.mkv" 0 700 "").episode_sort_key ≠ (U32_MAX, U32_MAX)
    ∧ sort_episodes
        [VideoFile.mk "Holiday.Film.mkv" 0 500 "", VideoFile.mk "Movie.2019.1920x1080.mkv" 1 700 ""]
      = [VideoFile.mk "Movie.2019.1920x1080.mkv" 1 700 "", VideoFile.mk "Holiday.Film.mkv" 0 500 ""] :=
  ⟨by decide, by decide, by decide⟩

/-- C8: sorting the concrete season pack `S01E03, S01E01, S01E02` gives the
ascending order `E01, E02, E03`; in general the output of `sort_episodes` is
sorted by the lexicographic `(season, episode)` key order, and every file
whose key is the unparseable sentinel sits after all files with a parseable
key (once a sentinel appears at a position, every later position is also a
sentinel). -/
theorem c8_sort_episodes (files : List VideoFile) (i j : Nat) (a b : VideoFile) :
    ((sort_episodes
        [VideoFile.mk "Show.S01E03.mkv" 0 100 "", VideoFile.mk "Show.S01E01.mkv" 1 100 "",
          VideoFile.mk "Show.S01E02.mkv" 2 100 ""]).map VideoFile.name
      = ["Show.S01E01.mkv", "Show.S01E02.mkv", "Show.S01E03.mkv"])
    ∧ List.Sorted epLe (sort_episodes files)
    ∧ (i < j → (sort_episodes files)[i]? = some a → (sort_episodes files)[j]? = some b →
        a.episode_sort_key = (U32_MAX, U32_MAX) → b.episode_sort_key = (U32_MAX, U32_MAX)) := by
  refine ⟨by decide, List.sorted_insertionSort epLe files, ?_⟩
  intro hij ha hb hsent
  obtain ⟨hi, ha⟩ := List.getElem?_eq_some_iff.mp ha
  obtain ⟨hj, hb⟩ := List.getElem?_eq_some_iff.mp hb
  have hp : List.Pairwise epLe (sort_episodes files) := List.sorted_insertionSort epLe files
  have hrel := List.pairwise_iff_getElem.mp hp i j hi hj hij
  rw [ha, hb] at hrel
  unfold epLe keyLe at hrel
  rw [hsent] at hrel
  have hbound := episode_sort_key_le_sentinel b
  simp only [Bool.or_eq_true, Bool.and_eq_true, decide_eq_true_eq] at hrel
  rw [Prod.ext_iff]
  constructor
  · omega
  · omega

/-- C8 witness: a pack with one parseable and two unparseable files keeps the
sentinels at positions 1 and 2 of the sorted output. -/
theorem c8_sort_episodes_witness :
    (VideoFile.mk "Credits.Reel.mkv" 2 50 "").episode_sort_key = (U32_MAX, U32_MAX) :=
  (c8_sort_episodes
      [VideoFile.mk "Bonus.Feature.mkv" 0 50 "", VideoFile.mk "Show.S01E01.mkv" 1 100 "",
        VideoFile.mk "Credits.Reel.mkv" 2 50 ""]
      1 2 (VideoFile.mk "Bonus.Feature.mkv" 0 50 "") (VideoFile.mk "Credits.Reel.mkv" 2 50 "")).2.2
    (by decide) (by decide) (by decide) (by decide)

/-! ### Claims about the race coordinator -/

/-- Once the race has returned, later events change nothing. -/
lemma raceStep_frozen {total : Nat} {v : Option TorrentValidation}
    {o : Nat → Except StreamError TorrentInfo} {s : RaceState} (ev : RaceEvent)
    (h : s.result.isSome) : raceStep total v o s ev = s := by
  unfold raceStep
  rw [if_pos h]

/-- Once the race has returned, any remaining schedule changes nothing. -/
lemma raceFoldl_frozen {total : Nat} {v : Option TorrentValidation}
    {o : Nat → Except StreamError TorrentInfo} :
    ∀ (evs : List RaceEvent) (s : RaceState), s.result.isSome →
      evs.foldl (raceStep total v o) s = s := by
  intro evs
  induction evs with
  | nil => intro s _; rfl
  | cons ev evs ih =>
      intro s h
      rw [List.foldl_cons, raceStep_frozen ev h, ih s h]

/-- Spawning a replacement grows the pool by at most one. -/
lemma raceSpawnNext_inFlight_length (total : Nat) (s : RaceState) :
    (raceSpawnNext total s).inFlight.length ≤ s.inFlight.length + 1 := by
  unfold raceSpawnNext
  dsimp only
  split
  · split
    · simp
    · simp
  · split
    · simp
    · simp

/-- A replacement is spawned without touching the candidate iterator unless a
candidate remains; the iterator advances by at most one. -/
lemma raceSpawnNext_nextIdx (total : Nat) (s : RaceState) :
    (raceSpawnNext total s).nextIdx = s.nextIdx
      ∨ (raceSpawnNext total s).nextIdx = s.nextIdx + 1 := by
  unfold raceSpawnNext
  dsimp only
  split
  · split
    · exact Or.inr rfl
    · exact Or.inr rfl
  · split
    · exact Or.inl rfl
    · exact Or.inl rfl

/-- The spawn helper either keeps the running result or reports the aggregate
failure. -/
lemma raceSpawnNext_result (total : Nat) (s : RaceState) :
    (raceSpawnNext total s).result = s.result
      ∨ (raceSpawnNext total s).result
          = some (.error (.TorrentError "no matching torrents found")) := by
  unfold raceSpawnNext
  dsimp only
  split
  · split
    · exact Or.inr rfl
    · exact Or.inl rfl
  · split
    · exact Or.inr rfl
    · exact Or.inl rfl

/-- One loop iteration never grows the pool: a completion is removed before
any replacement is spawned. -/
lemma raceStep_inFlight_le (total : Nat) (v : Option TorrentValidation)
    (o : Nat → Except StreamError TorrentInfo) (s : RaceState) (ev : RaceEvent) :
    (raceStep total v o s ev).inFlight.length ≤ s.inFlight.length := by
  unfold raceStep
  by_cases hres : s.result.isSome
  · rw [if_pos hres]
  · rw [if_neg hres]
    cases ev with
    | cancel => exact le_refl _
    | complete idx =>
        dsimp only
        by_cases hmem : idx ∈ s.inFlight
        · rw [if_pos hmem]
          have hlen : (s.inFlight.erase idx).length = s.inFlight.length - 1 :=
            List.length_erase_of_mem hmem
          have hpos : 0 < s.inFlight.length :=
            List.length_pos.mpr (List.ne_nil_of_mem hmem)
          have hspawn :=
            raceSpawnNext_inFlight_length total { s with inFlight := s.inFlight.erase idx }
          simp only at hspawn
          split
          · split
            · omega
            · simp only
              omega
          · omega
        · rw [if_neg hmem]

/-- The pool length never grows along a run. -/
lemma raceFoldl_inFlight_le (total : Nat) (v : Option TorrentValidation)
    (o : Nat → Except StreamError TorrentInfo) :
    ∀ (evs : List RaceEvent) (s : RaceState),
      (evs.foldl (raceStep total v o) s).inFlight.length ≤ s.inFlight.length := by
  intro evs
  induction evs with
  | nil => intro s; exact le_refl _
  | cons ev evs ih =>
      intro s
      rw [List.foldl_cons]
      exact (ih (raceStep total v o s ev)).trans (raceStep_inFlight_le total v o s ev)

/-- C2: the pool is seeded with exactly the first `min W N` candidate indices,
and along every schedule the number of in-flight tasks stays at most
`min W N`. -/
theorem c2_race_inflight_bound (total concurrent : Nat) (v : Option TorrentValidation)
    (o : Nat → Except StreamError TorrentInfo) (sched : List RaceEvent) :
    (raceInit total concurrent).inFlight = List.range (min concurrent total)
    ∧ (raceRun total v o concurrent sched).inFlight.length ≤ min concurrent total := by
  constructor
  · rfl
  · have h := raceFoldl_inFlight_le total v o sched (raceInit total concurrent)
    have hinit : (raceInit total concurrent).inFlight.length = min concurrent total := by
      simp [raceInit]
    rw [raceRun]
    omega

/-- One loop iteration leaves the result alone, returns the winner it just
validated, or reports cancellation or the aggregate failure — never a
per-candidate error. -/
lemma raceStep_result_cases {total : Nat} {v : Option TorrentValidation}
    {o : Nat → Except StreamError TorrentInfo} {s : RaceState} {ev : RaceEvent} :
    (raceStep total v o s ev).result = s.result
    ∨ (raceStep total v o s ev).result = some (.error (.TorrentError "cancelled"))
    ∨ (raceStep total v o s ev).result
        = some (.error (.TorrentError "no matching torrents found"))
    ∨ ∃ idx info, (raceStep total v o s ev).result = some (.ok (idx, info)) := by
  unfold raceStep
  by_cases hres : s.result.isSome
  · rw [if_pos hres]
    exact Or.inl rfl
  · rw [if_neg hres]
    cases ev with
    | cancel => exact Or.inr (Or.inl rfl)
    | complete idx =>
        dsimp only
        by_cases hmem : idx ∈ s.inFlight
        · rw [if_pos hmem]
          cases ho : o idx with
          | ok info =>
              dsimp only
              by_cases hrej : raceRejects v info = true
              · rw [if_pos hrej]
                rcases raceSpawnNext_result total
                    { s with inFlight := s.inFlight.erase idx } with h | h
                · exact Or.inl h
                · exact Or.inr (Or.inr (Or.inl h))
              · rw [if_neg hrej]
                exact Or.inr (Or.inr (Or.inr ⟨idx, info, rfl⟩))
          | error err =>
              dsimp only
              rcases raceSpawnNext_result total
                  { s with inFlight := s.inFlight.erase idx } with h | h
              · exact Or.inl h
              · exact Or.inr (Or.inr (Or.inl h))
        · rw [if_neg hmem]
          exact Or.inl rfl

/-- Any error-closed property of the running result is preserved along a
run, provided it holds of the two failures the loop itself can introduce. -/
lemma raceFoldl_result_closed {total : Nat} {v : Option TorrentValidation}
    {o : Nat → Except StreamError TorrentInfo} (P : StreamError → Prop)
    (hcan : P (.TorrentError "cancelled"))
    (hnm : P (.TorrentError "no matching torrents found")) :
    ∀ (evs : List RaceEvent) (s : RaceState),
      (∀ e, s.result = some (.error e) → P e) →
      ∀ e, (evs.foldl (raceStep total v o) s).result = some (.error e) → P e := by
  intro evs
  induction evs with
  | nil => intro s hs e he; exact hs e he
  | cons ev evs ih =>
      intro s hs e
      rw [List.foldl_cons]
      refine ih (raceStep total v o s ev) ?_ e
      intro e2 he2
      rcases @raceStep_result_cases total v o s ev
        with h | h | h | ⟨i2, inf2, h⟩
      · rw [h] at he2
        exact hs e2 he2
      · rw [h] at he2
        simp only [Option.some.injEq, Except.error.injEq] at he2
        exact he2 ▸ hcan
      · rw [h] at he2
        simp only [Option.some.injEq, Except.error.injEq] at he2
        exact he2 ▸ hnm
      · rw [h] at he2
        simp at he2

/-- A run whose prefix has not returned cannot have an empty candidate
list. -/
lemma race_pre_total_ne_zero {total concurrent : Nat} {v : Option TorrentValidation}
    {o : Nat → Except StreamError TorrentInfo} {pre : List RaceEvent}
    (hpre : (raceRun total v o concurrent pre).result = none) : total ≠ 0 := by
  intro h0
  subst h0
  have hsome : (raceInit 0 concurrent).result.isSome := by simp [raceInit]
  have hfr := @raceFoldl_frozen 0 v o pre (raceInit 0 concurrent) hsome
  rw [raceRun, hfr] at hpre
  rw [hpre] at hsome
  simp at hsome

/-- The loop iteration that processes a winning completion: the task is
removed from the pool and its `(index, torrent)` pair is returned. -/
lemma raceStep_winner {total : Nat} {v : Option TorrentValidation}
    {o : Nat → Except StreamError TorrentInfo} {s : RaceState} {c : Nat}
    {info : TorrentInfo} (hres : s.result = none) (hc : c ∈ s.inFlight)
    (hok : o c = .ok info) (hval : raceRejects v info = false) :
    raceStep total v o s (.complete c)
      = { s with inFlight := s.inFlight.erase c, result := some (.ok (c, info)) } := by
  unfold raceStep
  rw [if_neg (by simp [hres])]
  dsimp only
  rw [if_pos hc, hok]
  dsimp only
  rw [if_neg (by simp [hval])]

/-- The loop iteration that observes the cancellation token: the cancellation
failure is returned, the pool and the iterator untouched. -/
lemma raceStep_cancel {total : Nat} {v : Option TorrentValidation}
    {o : Nat → Except StreamError TorrentInfo} {s : RaceState}
    (hres : s.result = none) :
    raceStep total v o s .cancel
      = { s with result := some (.error (.TorrentError "cancelled")) } := by
  unfold raceStep
  rw [if_neg (by simp [hres])]

/-- C1: in a run whose processed completions have produced no return value
yet, the completion of an in-flight candidate `c` whose resolution succeeded
and whose selected filename is not rejected makes the race return
`Ok((c, info))` — `c` is the original input index and `info` its resolved
torrent — no matter what events follow; and on any schedule whatsoever the
race never returns an individual per-candidate failure: every error it can
return is the empty-input failure, the cancellation failure, or the single
aggregate exhaustion failure. -/
theorem c1_race_winner (total concurrent : Nat) (validation : Option TorrentValidation)
    (outcome : Nat → Except StreamError TorrentInfo) (pre post sched : List RaceEvent)
    (c : Nat) (info : TorrentInfo) (e : StreamError) :
    ((raceRun total validation outcome concurrent pre).result = none →
      c ∈ (raceRun total validation outcome concurrent pre).inFlight →
      outcome c = .ok info →
      raceRejects validation info = false →
      race_torrents total validation outcome concurrent (pre ++ .complete c :: post)
        = some (.ok (c, info)))
    ∧ (race_torrents total validation outcome concurrent sched = some (.error e) →
        e = .TorrentError "no torrents to race" ∨ e = .TorrentError "cancelled"
          ∨ e = .TorrentError "no matching torrents found") := by
  constructor
  · intro hpre hc hok hval
    have htot : total ≠ 0 := race_pre_total_ne_zero hpre
    have hstep := @raceStep_winner total validation outcome
      (raceRun total validation outcome concurrent pre) c info hpre hc hok hval
    have key : raceRun total validation outcome concurrent (pre ++ .complete c :: post)
        = { (raceRun total validation outcome concurrent pre) with
            inFlight := (raceRun total validation outcome concurrent pre).inFlight.erase c,
            result := some (.ok (c, info)) } := by
      rw [raceRun, List.foldl_append, List.foldl_cons]
      rw [show pre.foldl (raceStep total validation outcome) (raceInit total concurrent)
          = raceRun total validation outcome concurrent pre from rfl]
      rw [hstep, raceFoldl_frozen post _ (by simp)]
    rw [race_torrents, if_neg htot, key]
  · intro herr
    rw [race_torrents] at herr
    by_cases htot : total = 0
    · rw [if_pos htot] at herr
      simp only [Option.some.injEq, Except.error.injEq] at herr
      exact Or.inl herr.symm
    · rw [if_neg htot] at herr
      refine raceFoldl_result_closed
        (fun e => e = .TorrentError "no torrents to race" ∨ e = .TorrentError "cancelled"
          ∨ e = .TorrentError "no matching torrents found")
        (Or.inr (Or.inl rfl)) (Or.inr (Or.inr rfl)) sched (raceInit total concurrent) ?_ e herr
      intro e2 he2
      unfold raceInit at he2
      dsimp only at he2
      split at he2
      · simp only [Option.some.injEq, Except.error.injEq] at he2
        exact Or.inr (Or.inr he2.symm)
      · simp at he2

/-- C1 witness: one candidate, immediately completing successfully with an
accepting (absent) validation, wins with its index and torrent. -/
theorem c1_race_winner_witness :
    race_torrents 1 none
        (fun _ => .ok ⟨7, "t", [⟨"a.mkv", 0, 9, "u"⟩], ⟨"a.mkv", 0, 9, "u"⟩, []⟩) 1
        ([] ++ .complete 0 :: [])
      = some (.ok (0, ⟨7, "t", [⟨"a.mkv", 0, 9, "u"⟩], ⟨"a.mkv", 0, 9, "u"⟩, []⟩)) :=
  (c1_race_winner 1 1 none
      (fun _ => .ok ⟨7, "t", [⟨"a.mkv", 0, 9, "u"⟩], ⟨"a.mkv", 0, 9, "u"⟩, []⟩)
      [] [] [] 0 ⟨7, "t", [⟨"a.mkv", 0, 9, "u"⟩], ⟨"a.mkv", 0, 9, "u"⟩, []⟩
      StreamError.NoPeers).1 rfl (by decide) rfl rfl

/-- C3: if the cancellation branch fires while the race is still waiting, the
race returns the cancellation failure at once — the events of any remaining
schedule are irrelevant (it does not wait for in-flight tasks) and the
candidate iterator never advances past its position at the signal (no further
candidate is spawned). -/
theorem c3_race_cancelled (total concurrent : Nat) (validation : Option TorrentValidation)
    (outcome : Nat → Except StreamError TorrentInfo) (pre post : List RaceEvent) :
    (raceRun total validation outcome concurrent pre).result = none →
      race_torrents total validation outcome concurrent (pre ++ .cancel :: post)
        = some (.error (.TorrentError "cancelled"))
      ∧ (raceRun total validation outcome concurrent (pre ++ .cancel :: post)).nextIdx
          = (raceRun total validation outcome concurrent pre).nextIdx := by
  intro hpre
  have htot : total ≠ 0 := race_pre_total_ne_zero hpre
  have hstep := @raceStep_cancel total validation outcome
    (raceRun total validation outcome concurrent pre) hpre
  have key : raceRun total validation outcome concurrent (pre ++ .cancel :: post)
      = { (raceRun total validation outcome concurrent pre) with
          result := some (.error (.TorrentError "cancelled")) } := by
    rw [raceRun, List.foldl_append, List.foldl_cons]
    rw [show pre.foldl (raceStep total validation outcome) (raceInit total concurrent)
        = raceRun total validation outcome concurrent pre from rfl]
    rw [hstep, raceFoldl_frozen post _ (by simp)]
  constructor
  · rw [race_torrents, if_neg htot]
    rw [show (raceRun total validation outcome concurrent (pre ++ .cancel :: post)).result
        = ({ (raceRun total validation outcome concurrent pre) with
            result := some (.error (.TorrentError "cancelled")) } : RaceState).result
      from congrArg RaceState.result key]
  · rw [key]

/-- C3 witness: cancellation observed first on a fresh two-candidate race. -/
theorem c3_race_cancelled_witness :
    race_torrents 2 none (fun _ => .error .MetadataTimeout) 1 ([] ++ .cancel :: [])
        = some (.error (.TorrentError "cancelled"))
      ∧ (raceRun 2 none (fun _ => .error .MetadataTimeout) 1 ([] ++ .cancel :: [])).nextIdx
          = (raceRun 2 none (fun _ => .error .MetadataTimeout) 1 []).nextIdx :=
  c3_race_cancelled 2 1 none (fun _ => .error .MetadataTimeout) [] [] rfl

/-- C9: with concurrency width 0 and a non-empty candidate list, the seeding
loop spawns nothing, the `while` loop never runs, and the race returns the
aggregate failure immediately on every schedule; the candidate iterator never
advances (no task is ever spawned). -/
theorem c9_race_zero_concurrency (total : Nat) (validation : Option TorrentValidation)
    (outcome : Nat → Except StreamError TorrentInfo) (sched : List RaceEvent) :
    total ≠ 0 →
    race_torrents total validation outcome 0 sched
        = some (.error (.TorrentError "no matching torrents found"))
    ∧ (raceRun total validation outcome 0 sched).nextIdx = 0 := by
  intro htot
  have hinit : raceInit total 0
      = { inFlight := [], nextIdx := 0,
          result := some (.error (.TorrentError "no matching torrents found")) } := by
    simp [raceInit]
  have hrun : raceRun total validation outcome 0 sched = raceInit total 0 := by
    rw [raceRun]
    exact raceFoldl_frozen sched _ (by simp [hinit])
  constructor
  · rw [race_torrents, if_neg htot, hrun, hinit]
  · rw [hrun, hinit]

/-- C9 witness: three candidates, width 0, an arbitrary schedule. -/
theorem c9_race_zero_concurrency_witness :
    race_torrents 3 none (fun _ => .error .NoPeers) 0 [.complete 0]
        = some (.error (.TorrentError "no matching torrents found"))
    ∧ (raceRun 3 none (fun _ => .error .NoPeers) 0 [.complete 0]).nextIdx = 0 :=
  c9_race_zero_concurrency 3 none (fun _ => .error .NoPeers) [.complete 0] (by decide)

/-! ### Claims about redirect handling -/

/-- Inversion of one observed non-magnet hop. -/
lemma nonMagnetStep_inversion {world : String → HttpResp} {u u3 : String}
    (h : nonMagnetStep world u = some u3) :
    ∃ l, world u = .redirection (some l) ∧ isMagnetLocation l = false
      ∧ resolveLocation u l = .ok u3 := by
  unfold nonMagnetStep at h
  cases hw : world u with
  | netError m => rw [hw] at h; simp at h
  | success b => rw [hw] at h; simp at h
  | failure st => rw [hw] at h; simp at h
  | redirection lo =>
      cases lo with
      | none => rw [hw] at h; simp at h
      | some l =>
          rw [hw] at h
          dsimp only at h
          by_cases hm : isMagnetLocation l = true
          · rw [if_pos hm] at h
            simp at h
          · rw [if_neg hm] at h
            cases hr : resolveLocation u l with
            | ok n =>
                rw [hr] at h
                dsimp only at h
                refine ⟨l, by simp [hw], by simpa using hm, ?_⟩
                rw [hr, Option.some.inj h]
            | error e2 =>
                rw [hr] at h
                simp at h

/-- If a magnet location is reached while hop budget remains, the loop
returns the magnet redirect. -/
lemma fetch_go_magnet {world : String → HttpResp} {loc u2 : String} :
    ∀ (k : Nat) (url : String) (fuel : Nat),
      followN world k url = some u2 →
      world u2 = .redirection (some loc) →
      isMagnetLocation loc = true →
      k + 1 < fuel →
      fetch_torrent_file_go world fuel url = .error (.MagnetRedirect (extractMagnet loc)) := by
  intro k
  induction k with
  | zero =>
      intro url fuel hfollow hred hmag hk
      obtain rfl : u2 = url := (Option.some.inj (by simpa [followN] using hfollow)).symm
      obtain ⟨f, rfl⟩ : ∃ f, fuel = f + 1 := ⟨fuel - 1, by omega⟩
      unfold fetch_torrent_file_go
      rw [hred]
      try dsimp only
      rw [if_neg (show ¬ f = 0 by omega)]
      try dsimp only
      rw [if_pos hmag]
  | succ k ih =>
      intro url fuel hfollow hred hmag hk
      simp only [followN] at hfollow
      cases hstep : nonMagnetStep world url with
      | none => rw [hstep] at hfollow; simp at hfollow
      | some u3 =>
          rw [hstep] at hfollow
          try dsimp only at hfollow
          obtain ⟨l, hw, hlm, hres⟩ := nonMagnetStep_inversion hstep
          obtain ⟨f, rfl⟩ : ∃ f, fuel = f + 1 := ⟨fuel - 1, by omega⟩
          unfold fetch_torrent_file_go
          rw [hw]
          try dsimp only
          rw [if_neg (show ¬ f = 0 by omega)]
          try dsimp only
          rw [if_neg (by simp [hlm]), hres]
          exact ih u3 f hfollow hred hmag (by omega)

/-- C7: when, after `k` non-magnet redirect hops (so the magnet appears at
hop `k + 1`, within the 10-hop limit), the `Location` header contains a
magnet URI, the fetch aborts with the `MagnetRedirect` outcome — never the
too-many-redirects or any other per-candidate failure — and `add_torrent`
restarts resolution on the extracted magnet URI instead of failing. -/
theorem c7_magnet_redirect (world : String → HttpResp)
    (addViaHttp : String → Except StreamError TorrentInfo)
    (addBytes : List Nat → Except StreamError TorrentInfo)
    (url u2 loc : String) (k : Nat) :
    followN world k url = some u2 →
    world u2 = .redirection (some loc) →
    isMagnetLocation loc = true →
    k + 1 ≤ MAX_REDIRECTS →
    fetch_torrent_file world url = .error (.MagnetRedirect (extractMagnet loc))
    ∧ ((strStartsWith url "http://" || strStartsWith url "https://") = true →
        add_torrent world addViaHttp addBytes url = addViaHttp (extractMagnet loc)) := by
  intro hfollow hred hmag hk
  have hfetch : fetch_torrent_file world url = .error (.MagnetRedirect (extractMagnet loc)) := by
    unfold fetch_torrent_file
    refine fetch_go_magnet k url (MAX_REDIRECTS + 1) hfollow hred hmag ?_
    omega
  refine ⟨hfetch, ?_⟩
  intro hhttp
  unfold add_torrent
  rw [if_pos hhttp, hfetch]

/-- C7 witness: a chain whose third hop redirects to a magnet URI; resolution
restarts on that magnet (here: the magnet submission succeeds) instead of
failing. -/
theorem c7_magnet_redirect_witness :
    fetch_torrent_file
        (fun u =>
          if u = "http://indexer/get/1" then .redirection (some "http://indexer/get/2")
          else if u = "http://indexer/get/2" then .redirection (some "http://indexer/get/3")
          else if u = "http://indexer/get/3" then .redirection (some "magnet:?xt=urn:btih:abc")
          else .failure 404)
        "http://indexer/get/1"
      = .error (.MagnetRedirect "magnet:?xt=urn:btih:abc")
    ∧ add_torrent
        (fun u =>
          if u = "http://indexer/get/1" then .redirection (some "http://indexer/get/2")
          else if u = "http://indexer/get/2" then .redirection (some "http://indexer/get/3")
          else if u = "http://indexer/get/3" then .redirection (some "magnet:?xt=urn:btih:abc")
          else .failure 404)
        (fun m => .ok ⟨1, m, [⟨"v.mkv", 0, 1, "s"⟩], ⟨"v.mkv", 0, 1, "s"⟩, []⟩)
        (fun _ => .error .NoVideoFiles)
        "http://indexer/get/1"
      = .ok ⟨1, "magnet:?xt=urn:btih:abc", [⟨"v.mkv", 0, 1, "s"⟩], ⟨"v.mkv", 0, 1, "s"⟩, []⟩ := by
  have h := c7_magnet_redirect
    (fun u =>
      if u = "http://indexer/get/1" then .redirection (some "http://indexer/get/2")
      else if u = "http://indexer/get/2" then .redirection (some "http://indexer/get/3")
      else if u = "http://indexer/get/3" then .redirection (some "magnet:?xt=urn:btih:abc")
      else .failure 404)
    (fun m => .ok ⟨1, m, [⟨"v.mkv", 0, 1, "s"⟩], ⟨"v.mkv", 0, 1, "s"⟩, []⟩)
    (fun _ => .error .NoVideoFiles)
    "http://indexer/get/1" "http://indexer/get/3" "magnet:?xt=urn:btih:abc" 2
    (by decide) (by decide) (by decide) (by decide)
  exact ⟨h.1, h.2 (by decide)⟩
